import Mathlib

/-!
# Verification of the ttk91 wasm bridge (`src/lib.rs`)

A shallow embedding of the host-facing debugging bridge: the diagnostic
converter (`calculate_position`, `into_js_errors`), the device I/O queue
(`QueueIO`), the event relay (`EventRelay`), and the execution stepper
(`WasmEmulator`), together with proofs of the specification's claims about
them.

Machine integers are modelled as `Nat`/`Int` with explicit `% 2^w` where
truncation occurs.  Rust source text is modelled as its byte sequence
(`List Nat`), since offsets, lengths, and columns in the source are all
measured in bytes.  Fallible operations (including Rust panics observed by
the caller, such as `Vec::remove` on an empty vector or `.unwrap()` on an
engine fault) are modelled with `Except`.

The instruction decode/execute loop, the memory bank implementation and the
parser live in the external `ttk91` crate and are out of scope for the
repository; where a claim depends on them they are modelled from the spec
(each such definition says so in its doc comment) or quantified over.
-/

/-! ## Source positions (`calculate_position`, lib.rs lines 61-65)

```rust
fn calculate_position(input: &str, offset: usize) -> (usize, usize) {
    input[..offset]
        .split('\n')
        .fold((0,0), |(l,_), line| (l+1, line.len()))
}
```

`input` is the byte sequence of the source text; `'\n'` is byte 10.
Rust's `str::split` on a one-byte pattern yields the maximal pieces between
newline bytes, one piece more than the number of newlines (`""` splits to
`[""]`), which is exactly `List.splitOn 10`. -/

def newlineByte : Nat := 10

def calculate_position (input : List Nat) (offset : Nat) : Nat × Nat :=
  ((input.take offset).splitOn newlineByte).foldl
    (fun p line => (p.1 + 1, line.length)) (0, 0)

/-- The spec's description of the same computation: split the prefix on
newlines and take (number of pieces, byte length of the last piece). -/
def specPosition (input : List Nat) (offset : Nat) : Nat × Nat :=
  let pieces := (input.take offset).splitOn newlineByte
  (pieces.length, (pieces.getLastD []).length)

/-! ## Diagnostics (`into_js_errors`, lib.rs lines 30-109) -/

inductive ParseErrorLevel where
  | Suggestion
  | Error
deriving DecidableEq, Repr

structure JsParseError where
  level : ParseErrorLevel
  start_line : Nat
  start_column : Nat
  end_line : Nat
  end_column : Nat
  message : String
deriving DecidableEq, Repr

/-- A byte-offset span `[start, end)` (ttk91's `LineSpan`/range used by
`ParseError::span`). -/
structure ErrSpan where
  start : Nat
  stop : Nat
deriving DecidableEq, Repr

/-- A context attached to a ttk91 `ParseError`.  `into_js_errors` only
inspects the `Suggestion { span, message }` variant; every other context
kind is ignored by it, so they are collapsed into one constructor. -/
inductive Context where
  | Suggestion (span : ErrSpan) (message : String)
  | Other
deriving DecidableEq, Repr

/-- The data of a ttk91 `ParseError` that `into_js_errors` consumes: its
optional primary span (`error.span()`), its display message
(`error.to_string()`), and its attached contexts (`error.get_context()`,
in attachment order). -/
structure ParseError where
  span : Option ErrSpan
  message : String
  context : List Context
deriving DecidableEq, Repr

def isSuggestion : Context → Bool
  | .Suggestion _ _ => true
  | .Other => false

def into_js_errors (input : List Nat) (error : ParseError) : List JsParseError :=
  let coords :=
    match error.span with
    | some span =>
        let sp := calculate_position input span.start
        let ep := calculate_position input span.stop
        (sp.1, sp.2, ep.1, ep.2)
    | none => (0, 0, 0, 0)
  let primary : JsParseError :=
    { level := .Error
      start_line := coords.1
      start_column := coords.2.1
      end_line := coords.2.2.1
      end_column := coords.2.2.2
      message := error.message }
  let rest := error.context.filterMap fun ctx =>
    match ctx with
    | .Suggestion span message =>
        let sp := calculate_position input span.start
        let ep := calculate_position input span.stop
        some { level := .Suggestion
               start_line := sp.1
               start_column := sp.2
               end_line := ep.1
               end_column := ep.2
               message := message }
    | .Other => none
  primary :: rest

/-! ## The device queue (`QueueIO`, lib.rs lines 126-154)

```rust
impl InputOutput for QueueIO {
    fn input(&mut self, _device: u16) -> i32 { self.input.remove(0) }
    fn output(&mut self, _device: u16, data: i32) { self.output.push(data); }
    fn supervisor_call(&mut self, code: u16) { self.calls.push(code); }
}
```

`Vec::remove(0)` panics when the vector is empty; the panic is the
`QueueUnderflow` failure observed by the caller, modelled as `Except`. -/

structure QueueIO where
  input : List Int
  output : List Int
  calls : List Nat
deriving DecidableEq, Repr

inductive IOError where
  | QueueUnderflow
deriving DecidableEq, Repr

namespace QueueIO

def new : QueueIO := { input := [], output := [], calls := [] }

/-- `QueueIO::input` (named `inputOp` because `input` is already the field
name): remove and return the front of the input queue; on an empty queue
the removal fails (underflow). -/
def inputOp (q : QueueIO) (_device : Nat) : Except IOError (Int × QueueIO) :=
  match q.input with
  | [] => .error .QueueUnderflow
  | x :: rest => .ok (x, { q with input := rest })

/-- `QueueIO::output`: append `data` to the output log. -/
def outputOp (q : QueueIO) (_device : Nat) (data : Int) : QueueIO :=
  { q with output := q.output ++ [data] }

/-- `QueueIO::supervisor_call`: append `code` to the calls log. -/
def supervisor_call (q : QueueIO) (code : Nat) : QueueIO :=
  { q with calls := q.calls ++ [code] }

end QueueIO

/-! ### Theorems: positions and diagnostics -/

/-- A fold step compatible with `calculate_position`'s fold. -/
theorem foldl_count_last (init : Nat × Nat) (p : List Nat) (ps : List (List Nat)) :
    (p :: ps).foldl (fun a line => (a.1 + 1, line.length)) init =
      (init.1 + (p :: ps).length, ((p :: ps).getLastD []).length) := by
  induction ps generalizing init p with
  | nil => simp
  | cons q qs ih =>
      rw [List.foldl_cons, ih]
      simp [List.getLastD_cons]
      omega

/-- C8: `calculate_position` returns exactly (number of pieces, byte length
of the last piece) of the newline-split of `input[0..offset]`; in
particular the line number is 1-based (the split is never empty). -/
theorem calculate_position_eq_specPosition (input : List Nat) (offset : Nat) :
    calculate_position input offset = specPosition input offset ∧
      1 ≤ (calculate_position input offset).1 := by
  unfold calculate_position specPosition
  obtain ⟨p, ps, hsplit⟩ :
      ∃ p ps, (input.take offset).splitOn newlineByte = p :: ps := by
    rcases h : (input.take offset).splitOn newlineByte with _ | ⟨p, ps⟩
    · exact absurd h (List.splitOnP_ne_nil _ _)
    · exact ⟨p, ps, rfl⟩
  rw [hsplit, foldl_count_last]
  simp

/-! ## Events and the event relay (`EventRelay`, lib.rs lines 178-257) -/

/-- A register handle; the relay serializes it via `register.index()`. -/
structure Register where
  index : Nat
deriving DecidableEq, Repr

/-- The ttk91 `Event` tagged union: exactly four variants. -/
inductive Event where
  | SupervisorCall (code : Nat)
  | MemoryChange (address : Nat) (data : Int)
  | RegisterChange (register : Register) (data : Int)
  | Output (device : Nat) (data : Int)
deriving DecidableEq, Repr

/-- The JSON values built by `serde_json::json!` in `EventRelay::event`. -/
inductive JValue where
  | num (n : Int)
  | str (s : String)
  | obj (fields : List (String × JValue))
deriving Repr

def eventName : Event → String
  | .SupervisorCall _ => "supervisor-call"
  | .MemoryChange _ _ => "memory-change"
  | .RegisterChange _ _ => "register-change"
  | .Output _ _ => "output"

/-- The variant-specific payload object built in `EventRelay::event`. -/
def eventPayload : Event → JValue
  | .SupervisorCall code => .obj [("code", .num code)]
  | .MemoryChange address data => .obj [("address", .num address), ("data", .num data)]
  | .RegisterChange register data => .obj [("register", .num register.index), ("data", .num data)]
  | .Output device data => .obj [("device", .num device), ("data", .num data)]

/-- The event relay's registry, generic in the callback handle type `F`
(`js_sys::Function` in the source).  The `HashMap<String, Vec<Function>>`
is modelled as an association list: only per-key lookups are observable,
and insertion order inside each `Vec` is preserved by `push`. -/
structure EventRelay (F : Type) where
  listeners : List (String × List F)
  universal : List F
deriving Repr

namespace EventRelay

def new {F : Type} : EventRelay F := { listeners := [], universal := [] }

/-- `self.listeners.entry(event).or_default().push(listener)`. -/
def addToEntry {F : Type} (l : List (String × List F)) (k : String) (f : F) :
    List (String × List F) :=
  match l with
  | [] => [(k, [f])]
  | (k', v) :: rest =>
      if k' = k then (k', v ++ [f]) :: rest
      else (k', v) :: addToEntry rest k f

/-- `EventRelay::add_listener` (lib.rs lines 192-206). -/
def add_listener {F : Type} (r : EventRelay F) (event : String) (listener : F) :
    EventRelay F :=
  if event = "*" then { r with universal := r.universal ++ [listener] }
  else { r with listeners := addToEntry r.listeners event listener }

/-- `self.listeners.get(name)`. -/
def lookupListeners {F : Type} (l : List (String × List F)) (k : String) :
    Option (List F) :=
  match l with
  | [] => none
  | (k', v) :: rest => if k' = k then some v else lookupListeners rest k

/-- `EventRelay::event` (lib.rs lines 210-256): the sequence of listener
invocations performed for one dispatched event, each paired with the JSON
object passed to it.  Type-specific listeners come first
(`listeners.get(name).unwrap_or(&[]).iter().chain(universal.iter())`),
and every invocation receives `{ "type": name, "payload": object }`. -/
def event {F : Type} (r : EventRelay F) (ev : Event) : List (F × JValue) :=
  let name := eventName ev
  let specific := (lookupListeners r.listeners name).getD []
  let object := JValue.obj [("type", .str name), ("payload", eventPayload ev)]
  (specific ++ r.universal).map fun listener => (listener, object)

/-- A sequence of `add_listener` registrations applied to a fresh relay,
in order. -/
def registerAll {F : Type} (regs : List (String × F)) : EventRelay F :=
  regs.foldl (fun r p => r.add_listener p.1 p.2) EventRelay.new

end EventRelay

/-! ## The execution stepper (`WasmEmulator`, lib.rs lines 259-320)

The instruction decode/execute loop lives in the external `ttk91` crate
(`Emulator::step`).  Per the spec it is an engine exposing
`step() -> Result<(), EngineFault>` that emits output and supervisor-call
effects into the bound I/O back end as it executes; the wrapper below is
translated from `lib.rs` and is parameterized by that engine. -/

/-- The engine's register file and program counter (`emulator.context`):
eight 32-bit registers `r` and a 16-bit program counter `pc`. -/
structure EmuContext where
  r : Fin 8 → Int
  pc : Nat
deriving DecidableEq

/-- Modelled from the spec: the engine memory (`BalloonMemory` and its
`Memory::get_data` accessor are external).  §4.4: `readAddress` "Fails
with `MemoryAccessError` if the address is out of the program's allocated
range"; `data` holds the words of the allocated range. -/
structure Memory where
  data : List Int
deriving DecidableEq, Repr

inductive MemoryError where
  | MemoryAccessError
deriving DecidableEq, Repr

/-- Modelled from the spec: `getData(address) -> Result<word, MemoryAccessError>`. -/
def Memory.get_data (m : Memory) (addr : Nat) : Except MemoryError Int :=
  match m.data[addr]? with
  | some w => .ok w
  | none => .error .MemoryAccessError

/-- The engine state the wrapper can observe: registers/pc and memory. -/
structure Machine where
  context : EmuContext
  memory : Memory
deriving DecidableEq

/-- Modelled from the spec: the observable outcome of one step of the
external engine, for programs that request no device input.  §6: the
engine exposes `step() -> Result<(), EngineFault>` and emits output and
supervisor-call effects through the bound I/O back end during the step;
§4.4: a halt is surfaced as a normal step outcome in which the engine
stops producing new events. -/
inductive EngineStep where
  | halted
  | fault
  | next (m : Machine) (outs : List Int) (calls : List Nat)

/-- A source position (`span.start` of a ttk91 `LineSpan`). -/
structure Position where
  line : Nat
deriving DecidableEq, Repr

/-- A ttk91 `LineSpan`, of which the wrapper only reads `.start.line`. -/
structure LineSpan where
  start : Position
deriving DecidableEq, Repr

/-- The line-based source map (`SourceMap<LineSpan>`): an address-indexed
map, built once at load time, queried with `get_source_span`. -/
abbrev SourceMap := List (Nat × LineSpan)

/-- `SourceMap::get_source_span`: the span recorded for an address. -/
def SourceMap.get_source_span (sm : SourceMap) (addr : Nat) : Option LineSpan :=
  match sm with
  | [] => none
  | (a, s) :: rest => if a = addr then some s else SourceMap.get_source_span rest addr

/-- The `Output` struct returned by `WasmEmulator::step`
(lib.rs lines 156-161). -/
structure Output where
  output : List Int
  calls : List Nat
  line : Nat
deriving DecidableEq, Repr

inductive EmuError where
  | EmulationFault
deriving DecidableEq, Repr

/-- The JS error value produced by `read_address`'s `map_err`
(`{"error": "memory_error"}`). -/
inductive JsError where
  | memory_error
deriving DecidableEq, Repr

/-- The `WasmEmulator` state the claims are about: the wrapped engine
state, the bound `QueueIO`, and the load-time source map. -/
structure WasmEmulator where
  machine : Machine
  io : QueueIO
  source_map : SourceMap
deriving DecidableEq

namespace WasmEmulator

/-- `WasmEmulator::registers`: a snapshot copy of the register file. -/
def registers (e : WasmEmulator) : List Int :=
  List.ofFn e.machine.context.r

/-- `WasmEmulator::get_program_counter`. -/
def get_program_counter (e : WasmEmulator) : Nat :=
  e.machine.context.pc

/-- `WasmEmulator::stack_pointer`: `self.emulator.context.r[6] as u16`;
the `as u16` cast keeps the low 16 bits of the `i32` value, i.e. the
value modulo 2^16. -/
def stack_pointer (e : WasmEmulator) : Nat :=
  ((e.machine.context.r 6) % 65536).toNat

/-- `WasmEmulator::step` (lib.rs lines 281-296), parameterized by the
external engine's step behavior `estep`.  `self.emulator.step().unwrap()`
surfaces an engine fault as a failure to the caller (modelled as
`Except`); on success the report carries clones of the *full* output and
calls logs and the source line of the post-step program counter
(`get_source_span(pc).map(|s| s.start.line).unwrap_or(0)`). -/
def step (estep : Machine → EngineStep) (e : WasmEmulator) :
    Except EmuError (Output × WasmEmulator) :=
  match estep e.machine with
  | .fault => .error .EmulationFault
  | .halted =>
      let line := ((e.source_map.get_source_span e.machine.context.pc).map
        (fun s => s.start.line)).getD 0
      .ok ({ output := e.io.output, calls := e.io.calls, line := line }, e)
  | .next m outs calls =>
      let io : QueueIO := { e.io with
        output := e.io.output ++ outs
        calls := e.io.calls ++ calls }
      let line := ((e.source_map.get_source_span m.context.pc).map
        (fun s => s.start.line)).getD 0
      .ok ({ output := io.output, calls := io.calls, line := line },
        { e with machine := m, io := io })

/-- `WasmEmulator::read_address` (lib.rs lines 302-307):
`memory.get_data(addr).map_err(|_| {"error": "memory_error"})`. -/
def read_address (e : WasmEmulator) (addr : Nat) : Except JsError Int :=
  match e.machine.memory.get_data addr with
  | .ok w => .ok w
  | .error _ => .error .memory_error

end WasmEmulator

/-- Modelled from the spec: `execute` / `executeToCompletion`
(lib.rs lines 377-390) runs the compiled program to completion with a
`TestIo` back end and returns the collected output words.  The external
`Emulator::run` is the engine's step loop; with fuel `n` it returns the
concatenated output of the steps until the engine halts, `none` when the
engine faults or does not halt within the fuel. -/
def engineRun (estep : Machine → EngineStep) : Nat → Machine → Option (List Int)
  | 0, _ => none
  | fuel + 1, m =>
      match estep m with
      | .halted => some []
      | .fault => none
      | .next m' outs _ => (engineRun estep fuel m').map (outs ++ ·)

/-- Driving the stepper as the spec's refinement property prescribes:
call `step()` repeatedly until no further progress is possible (the
engine is halted), then read off the accumulated output — the Device
Queue's full output log, which is also the last report's `output_delta`.
Returns `none` on a fault or when the fuel runs out. -/
def stepUntilHalt (estep : Machine → EngineStep) : Nat → WasmEmulator → Option (List Int)
  | 0, _ => none
  | fuel + 1, e =>
      match estep e.machine with
      | .halted => some e.io.output
      | _ =>
          match WasmEmulator.step estep e with
          | .ok (_, e') => stepUntilHalt estep fuel e'
          | .error _ => none

/-! ### Theorems: device queue, accessors, faults -/

/-- C5: `QueueIO::input` removes and returns the front of the input queue
when it is non-empty, and fails with `QueueUnderflow` instead of returning
a word when the queue is empty. -/
theorem queueIO_input_front_or_underflow (q : QueueIO) (device : Nat) :
    (∀ x rest, q.input = x :: rest →
      q.inputOp device = .ok (x, { q with input := rest })) ∧
    (q.input = [] → q.inputOp device = .error .QueueUnderflow) := by
  constructor
  · intro x rest h
    simp [ QueueIO.inputOp, h]
  · intro h
    simp [ QueueIO.inputOp, h]

/-- Witness for C5 at a one-element queue and at the empty queue. -/
theorem queueIO_input_front_or_underflow_witness :
    QueueIO.inputOp { input := [7], output := [], calls := [] } 0
        = .ok (7, { input := [], output := [], calls := [] }) ∧
      QueueIO.inputOp { input := [], output := [], calls := [] } 0
        = .error .QueueUnderflow :=
  ⟨(queueIO_input_front_or_underflow { input := [7], output := [], calls := [] } 0).1
      7 [] rfl,
   (queueIO_input_front_or_underflow { input := [], output := [], calls := [] } 0).2 rfl⟩

/-- C10: `stack_pointer()` equals element index 6 of the `registers()`
snapshot truncated to an unsigned 16-bit word (and index 6 is always
inside the snapshot); both accessors are pure reads of the state. -/
theorem stack_pointer_eq_registers_six (e : WasmEmulator) :
    e.stack_pointer = ((e.registers.getD 6 0) % 65536).toNat ∧
      6 < e.registers.length := by
  constructor
  · simp only [WasmEmulator.stack_pointer, WasmEmulator.registers,
      List.getD_eq_getElem?_getD, List.getElem?_ofFn, List.ofFnNthVal]
    norm_num
    rfl
  · simp [WasmEmulator.registers]

/-- C7: `read_address` returns the stored word for every address inside
the allocated range, and a typed `memory_error` value for every address
outside it; the accessor is a pure function of the stepper state, so a
failed read leaves the stepper unchanged and usable. -/
theorem read_address_in_range_or_error (e : WasmEmulator) (addr : Nat) :
    (∀ h : addr < e.machine.memory.data.length,
      e.read_address addr = .ok (e.machine.memory.data.get ⟨addr, h⟩)) ∧
    (e.machine.memory.data.length ≤ addr →
      e.read_address addr = .error .memory_error) := by
  constructor
  · intro h
    simp [WasmEmulator.read_address, Memory.get_data, List.getElem?_eq_getElem h]
  · intro h
    simp [WasmEmulator.read_address, Memory.get_data, List.getElem?_eq_none h]

/-- Witness for C7: an in-range and an out-of-range read on a one-word
program image. -/
theorem read_address_in_range_or_error_witness :
    WasmEmulator.read_address
        { machine := { context := { r := fun _ => 0, pc := 0 }, memory := { data := [5] } },
          io := QueueIO.new, source_map := [] } 0 = .ok 5 ∧
      WasmEmulator.read_address
        { machine := { context := { r := fun _ => 0, pc := 0 }, memory := { data := [5] } },
          io := QueueIO.new, source_map := [] } 1 = .error .memory_error :=
  ⟨(read_address_in_range_or_error
      { machine := { context := { r := fun _ => 0, pc := 0 }, memory := { data := [5] } },
        io := QueueIO.new, source_map := [] } 0).1 (by decide),
   (read_address_in_range_or_error
      { machine := { context := { r := fun _ => 0, pc := 0 }, memory := { data := [5] } },
        io := QueueIO.new, source_map := [] } 1).2 (by decide)⟩

/-- C6: whenever the engine's step reports a fault, `step()` fails with
`EmulationFault` instead of returning a report. -/
theorem step_fault_propagates (estep : Machine → EngineStep) (e : WasmEmulator)
    (h : estep e.machine = .fault) :
    WasmEmulator.step estep e = .error .EmulationFault := by
  simp [WasmEmulator.step, h]

/-- Witness for C6: a concrete always-faulting engine. -/
theorem step_fault_propagates_witness :
    WasmEmulator.step (fun _ => .fault)
        { machine := { context := { r := fun _ => 0, pc := 0 }, memory := { data := [] } },
          io := QueueIO.new, source_map := [] }
      = .error .EmulationFault :=
  step_fault_propagates (fun _ => .fault)
    { machine := { context := { r := fun _ => 0, pc := 0 }, memory := { data := [] } },
      io := QueueIO.new, source_map := [] } rfl

/-- C9: when the failure carries no primary span, the produced `Error`
diagnostic has all four of its start and end line/column coordinates
equal to 0. -/
theorem into_js_errors_no_span_zero (input : List Nat) (error : ParseError)
    (h : error.span = none) :
    (into_js_errors input error).head? =
      some { level := .Error, start_line := 0, start_column := 0,
             end_line := 0, end_column := 0, message := error.message } := by
  simp [into_js_errors, h]

/-- Witness for C9 at a concrete span-less failure. -/
theorem into_js_errors_no_span_zero_witness :
    (into_js_errors [] { span := none, message := "m", context := [] }).head? =
      some { level := .Error, start_line := 0, start_column := 0,
             end_line := 0, end_column := 0, message := "m" } :=
  into_js_errors_no_span_zero [] { span := none, message := "m", context := [] } rfl

/-! ### Theorems: the step report (C1) -/

/-- C1: whenever the engine step succeeds, the returned report's
`output_delta` and `calls_delta` are the full accumulated contents of the
Device Queue's output and calls logs (the pre-step logs are a prefix of
them, so they cover everything since program load, not just this step),
and `source_line` is the line the source map assigns to the post-step
program counter, or 0 when the source map has no entry for it. -/
theorem step_report_full_logs_and_line (estep : Machine → EngineStep)
    (e : WasmEmulator) (out : Output) (e' : WasmEmulator)
    (h : WasmEmulator.step estep e = .ok (out, e')) :
    out.output = e'.io.output ∧ out.calls = e'.io.calls ∧
    (∃ t, e'.io.output = e.io.output ++ t) ∧
    (∃ t, e'.io.calls = e.io.calls ++ t) ∧
    (match e'.source_map.get_source_span e'.machine.context.pc with
     | some s => out.line = s.start.line
     | none => out.line = 0) := by
  cases hs : estep e.machine with
  | fault => simp [WasmEmulator.step, hs] at h
  | halted =>
      simp only [WasmEmulator.step, hs, Except.ok.injEq, Prod.mk.injEq] at h
      obtain ⟨hout, he⟩ := h
      subst he
      refine ⟨by rw [← hout], by rw [← hout], ⟨[], by simp⟩, ⟨[], by simp⟩, ?_⟩
      cases hsm : e.source_map.get_source_span e.machine.context.pc <;>
        simp [← hout, hsm]
  | next m outs calls =>
      simp only [WasmEmulator.step, hs, Except.ok.injEq, Prod.mk.injEq] at h
      obtain ⟨hout, he⟩ := h
      subst he
      refine ⟨by rw [← hout], by rw [← hout], ⟨outs, rfl⟩, ⟨calls, rfl⟩, ?_⟩
      cases hsm : SourceMap.get_source_span e.source_map m.context.pc <;>
        simp [← hout, hsm]

/-- Witness for C1: one successful step that emits output 42 and
supervisor call 11, with an empty source map (line 0). -/
theorem step_report_full_logs_and_line_witness :
    ({ output := [42], calls := [11], line := 0 } : Output).output
        = ({ input := [], output := [42], calls := [11] } : QueueIO).output ∧
      ({ output := [42], calls := [11], line := 0 } : Output).calls
        = ({ input := [], output := [42], calls := [11] } : QueueIO).calls ∧
      (∃ t, ({ input := [], output := [42], calls := [11] } : QueueIO).output
        = ([] : List Int) ++ t) ∧
      (∃ t, ({ input := [], output := [42], calls := [11] } : QueueIO).calls
        = ([] : List Nat) ++ t) ∧
      (match SourceMap.get_source_span ([] : SourceMap) 0 with
       | some s => (0 : Nat) = s.start.line
       | none => (0 : Nat) = 0) :=
  step_report_full_logs_and_line
    (fun m => .next m [42] [11])
    { machine := { context := { r := fun _ => 0, pc := 0 }, memory := { data := [] } },
      io := QueueIO.new, source_map := [] }
    { output := [42], calls := [11], line := 0 }
    { machine := { context := { r := fun _ => 0, pc := 0 }, memory := { data := [] } },
      io := { input := [], output := [42], calls := [11] }, source_map := [] }
    rfl

/-! ### Theorems: diagnostic conversion (C4) -/

/-- C4: diagnostic conversion is total (always returns a cons), its first
element is the single `Error`-level diagnostic carrying the failure's
message, and it is followed by exactly one `Suggestion`-level diagnostic
per suggestion context, in attachment order (their messages list the
suggestion messages in order). -/
theorem into_js_errors_shape (input : List Nat) (error : ParseError) :
    ∃ primary rest,
      into_js_errors input error = primary :: rest ∧
      primary.level = .Error ∧
      primary.message = error.message ∧
      rest.length = error.context.countP isSuggestion ∧
      (∀ d ∈ rest, d.level = .Suggestion) ∧
      rest.map JsParseError.message =
        error.context.filterMap (fun ctx =>
          match ctx with
          | .Suggestion _ m => some m
          | .Other => none) := by
  refine ⟨_, _, rfl, rfl, rfl, ?_, ?_, ?_⟩
  · induction error.context with
    | nil => simp
    | cons ctx rest ih =>
        cases ctx <;> simp [List.countP_cons, isSuggestion, ih]
  · intro d hd
    simp only [List.mem_filterMap] at hd
    obtain ⟨ctx, _, hctx⟩ := hd
    cases ctx with
    | Suggestion span message => simp at hctx; rw [← hctx]
    | Other => simp at hctx
  · induction error.context with
    | nil => simp
    | cons ctx rest ih =>
        cases ctx <;> simp [ih]

/-! ### Theorems: event relay dispatch (C2) -/

theorem lookupListeners_addToEntry_self {F : Type} (l : List (String × List F))
    (k : String) (f : F) :
    EventRelay.lookupListeners (EventRelay.addToEntry l k f) k =
      some ((EventRelay.lookupListeners l k).getD [] ++ [f]) := by
  induction l with
  | nil => simp [EventRelay.addToEntry, EventRelay.lookupListeners]
  | cons p rest ih =>
      obtain ⟨k', v⟩ := p
      by_cases hk : k' = k
      · simp [EventRelay.addToEntry, EventRelay.lookupListeners, hk]
      · simp [EventRelay.addToEntry, EventRelay.lookupListeners, hk, ih]

theorem lookupListeners_addToEntry_other {F : Type} (l : List (String × List F))
    (k k' : String) (f : F) (h : k ≠ k') :
    EventRelay.lookupListeners (EventRelay.addToEntry l k f) k' =
      EventRelay.lookupListeners l k' := by
  induction l with
  | nil => simp [EventRelay.addToEntry, EventRelay.lookupListeners, h]
  | cons p rest ih =>
      obtain ⟨k'', v⟩ := p
      by_cases hk : k'' = k
      · subst hk
        simp [EventRelay.addToEntry, EventRelay.lookupListeners, h]
      · simp [EventRelay.addToEntry, EventRelay.lookupListeners, hk, ih]

/-- Folding registrations over any starting relay appends the "*"
registrations, in order, to the universal list. -/
theorem registerAll_universal {F : Type} (regs : List (String × F)) (r : EventRelay F) :
    (regs.foldl (fun r p => r.add_listener p.1 p.2) r).universal =
      r.universal ++ (regs.filter (fun p => p.1 = "*")).map Prod.snd := by
  induction regs generalizing r with
  | nil => simp
  | cons p rest ih =>
      obtain ⟨ev, f⟩ := p
      simp only [List.foldl_cons]
      rw [ih]
      by_cases hev : ev = "*"
      · subst hev
        simp [EventRelay.add_listener, List.filter_cons]
      · simp [EventRelay.add_listener, hev, List.filter_cons]

/-- Folding registrations over any starting relay appends the
registrations under `name` (≠ "*"), in order, to `name`'s listener list. -/
theorem registerAll_lookup {F : Type} (regs : List (String × F)) (r : EventRelay F)
    (name : String) (hname : name ≠ "*") :
    (EventRelay.lookupListeners
        (regs.foldl (fun r p => r.add_listener p.1 p.2) r).listeners name).getD [] =
      (EventRelay.lookupListeners r.listeners name).getD [] ++
        (regs.filter (fun p => p.1 = name)).map Prod.snd := by
  induction regs generalizing r with
  | nil => simp
  | cons p rest ih =>
      obtain ⟨ev, f⟩ := p
      simp only [List.foldl_cons]
      rw [ih]
      by_cases hev : ev = "*"
      · subst hev
        have : ¬("*" = name) := fun h => hname h.symm
        simp [EventRelay.add_listener, List.filter_cons, this]
      · have hadd : (EventRelay.add_listener r ev f).listeners =
            EventRelay.addToEntry r.listeners ev f := by
          simp [EventRelay.add_listener, hev]
        by_cases h2 : ev = name
        · subst h2
          rw [hadd, lookupListeners_addToEntry_self]
          simp [List.filter_cons, List.append_assoc]
        · rw [hadd, lookupListeners_addToEntry_other _ _ _ _ h2]
          simp [List.filter_cons, h2]

theorem eventName_ne_star (ev : Event) : eventName ev ≠ "*" := by
  cases ev <;> simp only [eventName] <;> decide

/-- C2: dispatching an event to a relay built by any sequence of
registrations invokes every listener registered under the event's type
name before every listener registered under "*", each group in its
registration order, and every invocation receives the JSON object
`{ type, payload }` whose payload carries the variant's field names:
`code`; `address`/`data`; `register` (as the numeric index)/`data`;
`device`/`data`. -/
theorem relay_dispatch_order_and_payload {F : Type} (regs : List (String × F))
    (ev : Event) :
    (EventRelay.registerAll regs).event ev =
      ((regs.filter (fun p => p.1 = eventName ev)).map Prod.snd ++
        (regs.filter (fun p => p.1 = "*")).map Prod.snd).map
        (fun f => (f,
          JValue.obj [("type", JValue.str (eventName ev)),
            ("payload",
              match ev with
              | .SupervisorCall code => JValue.obj [("code", .num code)]
              | .MemoryChange address data =>
                  JValue.obj [("address", .num address), ("data", .num data)]
              | .RegisterChange register data =>
                  JValue.obj [("register", .num register.index), ("data", .num data)]
              | .Output device data =>
                  JValue.obj [("device", .num device), ("data", .num data)])])) := by
  have hpayload : eventPayload ev =
      match ev with
      | .SupervisorCall code => JValue.obj [("code", .num code)]
      | .MemoryChange address data =>
          JValue.obj [("address", .num address), ("data", .num data)]
      | .RegisterChange register data =>
          JValue.obj [("register", .num register.index), ("data", .num data)]
      | .Output device data =>
          JValue.obj [("device", .num device), ("data", .num data)] := by
    cases ev <;> rfl
  simp only [EventRelay.event, EventRelay.registerAll]
  rw [registerAll_lookup regs EventRelay.new (eventName ev) (eventName_ne_star ev),
    registerAll_universal regs EventRelay.new, hpayload]
  simp [EventRelay.new, EventRelay.lookupListeners]

/-! ### Theorems: stepper refines the one-shot run (C3) -/

/-- Driving the stepper accumulates, on top of the output log it started
with, exactly the output that the engine's run loop collects. -/
theorem stepUntilHalt_eq_engineRun (estep : Machine → EngineStep) (fuel : Nat)
    (e : WasmEmulator) :
    stepUntilHalt estep fuel e =
      (engineRun estep fuel e.machine).map (e.io.output ++ ·) := by
  induction fuel generalizing e with
  | zero => simp [stepUntilHalt, engineRun]
  | succ fuel ih =>
      cases hs : estep e.machine with
      | halted => simp [stepUntilHalt, engineRun, hs]
      | fault => simp [stepUntilHalt, engineRun, hs, WasmEmulator.step]
      | next m outs calls =>
          simp only [stepUntilHalt, engineRun, hs, WasmEmulator.step]
          rw [ih]
          cases engineRun estep fuel m <;> simp [List.append_assoc]

/-- C3: for every engine behavior and every program state from which the
engine's run loop halts (within the given fuel) without requesting device
input, the output accumulated by creating a fresh stepper and calling
`step()` until no further progress is possible equals the output returned
by the one-shot `engineRun` (`execute` / `executeToCompletion`). -/
theorem stepper_refines_execute (estep : Machine → EngineStep) (m : Machine)
    (sm : SourceMap) (fuel : Nat) (out : List Int)
    (h : engineRun estep fuel m = some out) :
    stepUntilHalt estep fuel { machine := m, io := QueueIO.new, source_map := sm }
      = some out := by
  rw [stepUntilHalt_eq_engineRun, h]
  simp [ QueueIO.new]

/-- Witness for C3: a two-state program that outputs 42 and halts. -/
theorem stepper_refines_execute_witness :
    stepUntilHalt
        (fun m => if m.context.pc = 0
          then .next { m with context := { m.context with pc := 1 } } [42] []
          else .halted)
        2
        { machine := { context := { r := fun _ => 0, pc := 0 }, memory := { data := [] } },
          io := QueueIO.new, source_map := [] }
      = some [42] :=
  stepper_refines_execute
    (fun m => if m.context.pc = 0
      then .next { m with context := { m.context with pc := 1 } } [42] []
      else .halted)
    { context := { r := fun _ => 0, pc := 0 }, memory := { data := [] } }
    [] 2 [42] rfl
